import Mathlib

/-!
Verification of the example-indexing and batch-assembly subsystem of
`src/evaluation/dataset.py` (GLM-130B evaluation datasets).

Token sequences are modelled as `List Int`; machine integers in the
source are arbitrary-precision Python ints, so `Int`/`Nat` are faithful.
Sizes and configuration fields (`max_seq_length`, `max_gen_length`,
`generation_length`, per-document token counts) are `Nat`.
-/

namespace GLM130B

/-- Model of `np.zeros_like(xs)` for a one-dimensional int64 array. -/
def np_zeros_like (xs : List Int) : List Int := xs.map (fun _ => 0)

/-- Model of `xs.repeat(n, -1)` for a one-dimensional array: each element is
repeated `n` times in place. -/
def np_repeat (n : Nat) (xs : List Int) : List Int := xs.flatMap (List.replicate n)

/-- Model of the slice `xs[..., -1:]` for a one-dimensional array: the suffix
holding the last element (empty when `xs` is empty). -/
def last_slice (xs : List Int) : List Int := xs.drop (xs.length - 1)

/-- `pad_batch` from `src/evaluation/dataset.py` (lines 21-33).
`attention_mask` is right-padded with `0` (`np.pad` constant 0), `tokens` is
extended with `np.zeros(pad_length)`, and `position_ids` is extended with
`np.zeros_like(position_ids[..., -1:], dtype=np.int64).repeat(pad_length, -1)`.
Returns `(tokens, position_ids, attention_mask)`. -/
def pad_batch (tokens position_ids attention_mask : List Int) (max_seq_length : Nat) :
    List Int × List Int × List Int :=
  let pad_length := max_seq_length - tokens.length
  let attention_mask2 := attention_mask ++ List.replicate pad_length 0
  let tokens2 := tokens ++ List.replicate pad_length 0
  let position_ids2 := position_ids ++ np_repeat pad_length (np_zeros_like (last_slice position_ids))
  (tokens2, position_ids2, attention_mask2)

/-- Claim C1 (code_bug): the spec says the appended position-id slots all equal
the item's last real position value `p`; the code wraps the last-slot slice in
`np.zeros_like`, so the appended position-id slots are all `0`.  At tokens
`[1,2,3,4]`, position ids `[0,1,2,3]` (last position value `3`), mask
`[1,1,1,1]`, pad target `9` (5 pad slots), the code yields padded position ids
`[0,1,2,3,0,0,0,0,0]`, not `[0,1,2,3,3,3,3,3,3]`. -/
theorem pad_batch_position_pad_is_zero :
    (pad_batch [1, 2, 3, 4] [0, 1, 2, 3] [1, 1, 1, 1] 9).2.1 = [0, 1, 2, 3, 0, 0, 0, 0, 0] ∧
    ¬ (pad_batch [1, 2, 3, 4] [0, 1, 2, 3] [1, 1, 1, 1] 9).2.1 = [0, 1, 2, 3, 3, 3, 3, 3, 3] := by
  decide

/-- Claim C10 (frame effect of `pad_batch`): for inputs whose token length is at
most the pad target, the original token, position-id and attention-mask entries
are preserved unchanged as prefixes of the outputs, and every appended token and
attention-mask entry equals `0`; only slots at or beyond the original length are
written. -/
theorem pad_batch_frame (tokens position_ids attention_mask : List Int)
    (max_seq_length : Nat) (h : tokens.length ≤ max_seq_length) :
    (pad_batch tokens position_ids attention_mask max_seq_length).1.take tokens.length = tokens ∧
    (pad_batch tokens position_ids attention_mask max_seq_length).2.1.take position_ids.length =
      position_ids ∧
    (pad_batch tokens position_ids attention_mask max_seq_length).2.2.take attention_mask.length =
      attention_mask ∧
    (pad_batch tokens position_ids attention_mask max_seq_length).1.drop tokens.length =
      List.replicate (max_seq_length - tokens.length) 0 ∧
    (pad_batch tokens position_ids attention_mask max_seq_length).2.2.drop attention_mask.length =
      List.replicate (max_seq_length - tokens.length) 0 := by
  refine ⟨?_, ?_, ?_, ?_, ?_⟩ <;>
    simp [pad_batch, List.take_left, List.drop_left]

/-- Concrete instance of `pad_batch_frame`: tokens `[1,2,3]`, position ids
`[7,8,9]`, mask `[1,1,1]`, pad target `5`. -/
theorem pad_batch_frame_witness :
    ([1, 2, 3] : List Int).length ≤ 5 ∧
    ((pad_batch [1, 2, 3] [7, 8, 9] [1, 1, 1] 5).1.take ([1, 2, 3] : List Int).length =
        [1, 2, 3] ∧
      (pad_batch [1, 2, 3] [7, 8, 9] [1, 1, 1] 5).2.1.take ([7, 8, 9] : List Int).length =
        [7, 8, 9] ∧
      (pad_batch [1, 2, 3] [7, 8, 9] [1, 1, 1] 5).2.2.take ([1, 1, 1] : List Int).length =
        [1, 1, 1] ∧
      (pad_batch [1, 2, 3] [7, 8, 9] [1, 1, 1] 5).1.drop ([1, 2, 3] : List Int).length =
        List.replicate (5 - ([1, 2, 3] : List Int).length) 0 ∧
      (pad_batch [1, 2, 3] [7, 8, 9] [1, 1, 1] 5).2.2.drop ([1, 1, 1] : List Int).length =
        List.replicate (5 - ([1, 2, 3] : List Int).length) 0) :=
  ⟨by decide, pad_batch_frame [1, 2, 3] [7, 8, 9] [1, 1, 1] 5 (by decide)⟩

/-- The longest `token` sequence length in a batch of samples, as computed by
`max(map(lambda spl: len(spl["token"]), samples))` in both `collate_fn`s (the
batch is non-empty wherever Python's `max` is defined). Samples are modelled by
their `token` field. -/
def max_token_length (samples : List (List Int)) : Nat :=
  (samples.map List.length).foldl max 0

/-- The common padded length of one collated batch, from
`GenerationTaskDataset.collate_fn` (lines 98-100) and
`MultiChoiceTaskDataset.collate_fn` (lines 144-146):
`(max_len + TILE - 1) // TILE * TILE` with `TILE = 32`. -/
def length_to_pad (samples : List (List Int)) : Nat :=
  (max_token_length samples + 32 - 1) / 32 * 32

/-- Claim C9: for every non-empty batch, the collated padded length is the
smallest multiple of 32 that is at least the longest token-sequence length in
the batch (so it is a multiple of 32, at least the maximum, and less than the
maximum plus 32), and it equals the maximum exactly when the maximum is already
a multiple of 32. -/
theorem length_to_pad_tile_aligned (samples : List (List Int)) (h : samples ≠ []) :
    length_to_pad samples % 32 = 0 ∧
    max_token_length samples ≤ length_to_pad samples ∧
    length_to_pad samples < max_token_length samples + 32 ∧
    (max_token_length samples % 32 = 0 → length_to_pad samples = max_token_length samples) := by
  unfold length_to_pad
  omega

/-- Concrete instance of `length_to_pad_tile_aligned`: a batch with items of
lengths 32 and 20 collates to padded length 32 (the maximum, already
tile-aligned), not 64. -/
theorem length_to_pad_tile_aligned_witness :
    length_to_pad [List.replicate 32 (0 : Int), List.replicate 20 0] % 32 = 0 ∧
    max_token_length [List.replicate 32 (0 : Int), List.replicate 20 0] ≤
      length_to_pad [List.replicate 32 (0 : Int), List.replicate 20 0] ∧
    length_to_pad [List.replicate 32 (0 : Int), List.replicate 20 0] <
      max_token_length [List.replicate 32 (0 : Int), List.replicate 20 0] + 32 ∧
    (max_token_length [List.replicate 32 (0 : Int), List.replicate 20 0] % 32 = 0 →
      length_to_pad [List.replicate 32 (0 : Int), List.replicate 20 0] =
        max_token_length [List.replicate 32 (0 : Int), List.replicate 20 0]) :=
  length_to_pad_tile_aligned [List.replicate 32 (0 : Int), List.replicate 20 0] (by decide)

/-- Text truncation of `GenerationTaskDataset.process_single_item` (lines
89-91): when `len(text) + max_gen_length + 2 > max_seq_length`, the text is
replaced by `text[len(text) - text_length : len(text)]` with
`text_length = max_seq_length - max_gen_length - 2`. -/
def generation_truncate (text : List Int) (max_gen_length max_seq_length : Nat) : List Int :=
  if max_seq_length < text.length + max_gen_length + 2 then
    let text_length := max_seq_length - max_gen_length - 2
    text.drop (text.length - text_length)
  else text

/-- Text truncation of `MultiChoiceTaskDataset.process_single_item` (lines
179-181), with `tgt_seq_length` in place of `max_gen_length`. -/
def multichoice_truncate (text : List Int) (tgt_seq_length max_seq_length : Nat) : List Int :=
  if max_seq_length < text.length + tgt_seq_length + 2 then
    let text_length := max_seq_length - tgt_seq_length - 2
    text.drop (text.length - text_length)
  else text

/-- Claim C5: when `len(text) + max_gen_length + 2 > max_seq_length`, generation
expansion keeps exactly the suffix of `text` of length
`max_seq_length - max_gen_length - 2` (dropping the earliest tokens); otherwise
the text is unchanged. The multi-choice strategy applies the identical rule with
`tgt_seq_length` in place of `max_gen_length`. -/
theorem generation_truncate_suffix (text : List Int) (max_gen_length max_seq_length : Nat) :
    (max_seq_length < text.length + max_gen_length + 2 →
      generation_truncate text max_gen_length max_seq_length =
        text.drop (text.length - (max_seq_length - max_gen_length - 2)) ∧
      (generation_truncate text max_gen_length max_seq_length).length =
        max_seq_length - max_gen_length - 2 ∧
      generation_truncate text max_gen_length max_seq_length <:+ text) ∧
    (text.length + max_gen_length + 2 ≤ max_seq_length →
      generation_truncate text max_gen_length max_seq_length = text) ∧
    multichoice_truncate text max_gen_length max_seq_length =
      generation_truncate text max_gen_length max_seq_length := by
  refine ⟨fun hgt => ?_, fun hle => ?_, rfl⟩
  · rw [generation_truncate, if_pos hgt]
    refine ⟨rfl, ?_, List.drop_suffix _ _⟩
    rw [List.length_drop]
    omega
  · rw [generation_truncate, if_neg (by omega)]

/-- Concrete instance of `generation_truncate_suffix`: a 100-token text with
`max_seq_length = 50` and `max_gen_length = 10` keeps exactly its last
`50 - 10 - 2 = 38` tokens. -/
theorem generation_truncate_suffix_witness :
    generation_truncate ((List.range 100).map Int.ofNat) 10 50 =
      ((List.range 100).map Int.ofNat).drop 62 ∧
    (generation_truncate ((List.range 100).map Int.ofNat) 10 50).length = 38 := by
  have h := (generation_truncate_suffix ((List.range 100).map Int.ofNat) 10 50).1 (by decide)
  exact ⟨h.1, h.2.1⟩

/-- The target length of `MultiChoiceTaskDataset.process_single_item` (lines
173-176): the sum of the choices' token lengths, collapsed to `1` when that sum
equals the number of choices (the "single token" special case inserting one
shared `[sop]`). -/
def tgt_seq_length (choices : List (List Int)) : Nat :=
  let s := (choices.map List.length).sum
  if s = choices.length then 1 else s

/-- The two fatal `assert`s of `MultiChoiceTaskDataset.process_single_item`, in
source order. -/
inductive MCAssert where
  | tgt_too_long
  | multitask_blank
deriving DecidableEq

/-- `MultiChoiceTaskDataset.process_single_item` (lines 170-190) restricted to
the fields this subsystem computes: target-length computation, the
`tgt_seq_length < max_seq_length` assertion, suffix truncation of the text, and
the blank-filling/multitask-encoding assertion on the truncated text. Returns
the retained text and the (possibly collapsed) target length, or the assertion
that fired. -/
def multichoice_process_single_item (text : List Int) (choices : List (List Int))
    (mask_id : Int) (use_multitask_encoding : Bool) (max_seq_length : Nat) :
    Except MCAssert (List Int × Nat) :=
  let tgt := tgt_seq_length choices
  if tgt < max_seq_length then
    let text2 := multichoice_truncate text tgt max_seq_length
    if mask_id ∈ text2 ∧ use_multitask_encoding then .error .multitask_blank
    else .ok (text2, tgt)
  else .error .tgt_too_long

/-- Counterexample to claim C6 as stated: with choices tokenizing to `[]` and
`[5, 6]`, the sum of token lengths (2) equals the number of choices (2), so the
target length collapses to `1` even though not every choice tokenizes to exactly
one token. -/
theorem tgt_seq_length_collapse_cex :
    tgt_seq_length [([] : List Int), [5, 6]] = 1 ∧
    ([([] : List Int), [5, 6]].all fun c => c.length == 1) = false := by
  decide

/-- Sum of a list of positive naturals is at least its length, with equality
exactly when every entry is `1`. -/
theorem sum_ge_length_of_pos (l : List Nat) (h : ∀ x ∈ l, 1 ≤ x) :
    l.length ≤ l.sum ∧ (l.sum = l.length ↔ ∀ x ∈ l, x = 1) := by
  induction l with
  | nil => simp
  | cons a t ih =>
    have ha : 1 ≤ a := h a (by simp)
    have ht := ih fun x hx => h x (by simp [hx])
    constructor
    · simp only [List.sum_cons, List.length_cons]
      omega
    · simp only [List.sum_cons, List.length_cons, List.mem_cons]
      constructor
      · intro he
        have h1 : t.sum = t.length := by omega
        intro x hx
        rcases hx with hx | hx
        · omega
        · exact ht.2.mp h1 x hx
      · intro hall
        have h1 : ∀ x ∈ t, x = 1 := fun x hx => hall x (Or.inr hx)
        have h2 : t.sum = t.length := ht.2.mpr h1
        have h3 : a = 1 := hall a (Or.inl rfl)
        omega

/-- Claim C6 (amended): for a non-empty choice list all of whose choices are
non-empty, the target length collapses to `1` exactly when every choice
tokenizes to exactly one token; when not every choice is a single token, the
target length equals the sum of the choices' token lengths. -/
theorem tgt_seq_length_collapse (choices : List (List Int)) (hne : choices ≠ [])
    (hpos : ∀ c ∈ choices, c ≠ []) :
    (tgt_seq_length choices = 1 ↔ ∀ c ∈ choices, c.length = 1) ∧
    (¬ (∀ c ∈ choices, c.length = 1) →
      tgt_seq_length choices = (choices.map List.length).sum) := by
  have hp : ∀ x ∈ choices.map List.length, 1 ≤ x := by
    intro x hx
    rcases List.mem_map.mp hx with ⟨c, hc, rfl⟩
    have := hpos c hc
    cases c with
    | nil => exact absurd rfl this
    | cons a t => simp
  have hkey := sum_ge_length_of_pos (choices.map List.length) hp
  rw [List.length_map] at hkey
  have hiff : (choices.map List.length).sum = choices.length ↔ ∀ c ∈ choices, c.length = 1 := by
    rw [hkey.2]
    constructor
    · intro h1 c hc
      exact h1 c.length (List.mem_map.mpr ⟨c, hc, rfl⟩)
    · intro h1 x hx
      rcases List.mem_map.mp hx with ⟨c, hc, rfl⟩
      exact h1 c hc
  constructor
  · simp only [tgt_seq_length]
    split
    · rename_i hs
      exact iff_of_true rfl (hiff.mp hs)
    · rename_i hno
      have hrhs : ¬ ∀ c ∈ choices, c.length = 1 := fun h1 => hno (hiff.mpr h1)
      have hlen : 1 ≤ choices.length := by
        cases choices with
        | nil => exact absurd rfl hne
        | cons a t => simp
      have hlhs : (choices.map List.length).sum ≠ 1 := by
        intro h1
        have h2 := hkey.1
        omega
      exact iff_of_false hlhs hrhs
  · intro hnot
    simp only [tgt_seq_length]
    rw [if_neg (fun he => hnot (hiff.mp he))]

/-- Concrete instance of `tgt_seq_length_collapse`: two single-token choices
collapse the target length to `1`. -/
theorem tgt_seq_length_collapse_witness :
    (tgt_seq_length [[(5 : Int)], [7]] = 1 ↔ ∀ c ∈ [[(5 : Int)], [7]], c.length = 1) ∧
    (¬ (∀ c ∈ [[(5 : Int)], [7]], c.length = 1) →
      tgt_seq_length [[(5 : Int)], [7]] = ([[(5 : Int)], [7]].map List.length).sum) :=
  tgt_seq_length_collapse [[(5 : Int)], [7]] (by decide) (by decide)

/-- Counterexample to claim C7 as stated: with choices `[[1], [2]]` and
`max_seq_length = 2`, the sum of the choices' token lengths is `2 ≥
max_seq_length`, yet expansion succeeds without any assertion error, because the
assertion tests the collapsed target length `1 < 2`. -/
theorem multichoice_assert_cex :
    2 ≤ ([[(1 : Int)], [2]].map List.length).sum ∧
    multichoice_process_single_item [] [[(1 : Int)], [2]] 0 false 2 = .ok ([], 1) :=
  ⟨by decide, rfl⟩

/-- Claim C7 (amended): multi-choice expansion fails with the target-length
assertion exactly when the collapsed target length `tgt_seq_length` (the sum of
the choices' token lengths, collapsed to `1` in the all-single-token case) is at
least `max_seq_length`; records whose collapsed target length is below
`max_seq_length` never trigger this assertion. -/
theorem multichoice_assert_iff (text : List Int) (choices : List (List Int))
    (mask_id : Int) (use_multitask_encoding : Bool) (max_seq_length : Nat) :
    multichoice_process_single_item text choices mask_id use_multitask_encoding max_seq_length =
      .error .tgt_too_long ↔ max_seq_length ≤ tgt_seq_length choices := by
  simp only [multichoice_process_single_item]
  split
  · split <;> simp <;> omega
  · simp
    omega

/-- Concrete instance of `multichoice_assert_iff`: one single-token choice with
`max_seq_length = 1` triggers the target-length assertion. -/
theorem multichoice_assert_iff_witness :
    multichoice_process_single_item [] [[(1 : Int)]] 0 false 1 = .error .tgt_too_long :=
  (multichoice_assert_iff [] [[(1 : Int)]] 0 false 1).mpr (by decide)

/-- The flag update at lines 187-188 of `process_single_item`:
`if tgt_seq_length != 1: self.is_single_token = False`. -/
def update_is_single_token (flag : Bool) (choices : List (List Int)) : Bool :=
  if tgt_seq_length choices ≠ 1 then false else flag

/-- The dataset-level `is_single_token` flag after construction: it starts
`true` (`MultiChoiceTaskDataset.__init__`, line 137) and is threaded through
`process_single_item` over all records in load order. Records are modelled by
their choice lists, the only field the update reads. -/
def final_is_single_token (records : List (List (List Int))) : Bool :=
  records.foldl update_is_single_token true

/-- Folding the flag update from any starting value is the conjunction of the
start value with "every record's collapsed target length is 1". -/
theorem foldl_update_is_single_token (records : List (List (List Int))) (b : Bool) :
    records.foldl update_is_single_token b =
      (b && records.all fun r => tgt_seq_length r == 1) := by
  induction records generalizing b with
  | nil => simp
  | cons r t ih =>
    rw [List.foldl_cons, ih, List.all_cons]
    unfold update_is_single_token
    split
    · rename_i hne
      simp [beq_eq_false_iff_ne.mpr hne]
    · rename_i heq
      rw [not_ne_iff] at heq
      simp [heq, Bool.and_assoc]

/-- Claim C8: the `is_single_token` flag starts `true`, becomes `false` once any
record's collapsed target length differs from `1`, is never reset (folding the
update from `false` stays `false`), is order-independent (reversing the records
yields the same final flag), and its final value is `false` exactly when some
record has collapsed target length different from `1`. -/
theorem final_is_single_token_spec (records : List (List (List Int))) :
    final_is_single_token [] = true ∧
    final_is_single_token records = (records.all fun r => tgt_seq_length r == 1) ∧
    records.foldl update_is_single_token false = false ∧
    final_is_single_token records.reverse = final_is_single_token records ∧
    (final_is_single_token records = false ↔ ∃ r ∈ records, tgt_seq_length r ≠ 1) := by
  have h1 := foldl_update_is_single_token records true
  have h0 := foldl_update_is_single_token records false
  have hr := foldl_update_is_single_token records.reverse true
  refine ⟨rfl, by simpa using h1, by simpa using h0, ?_, ?_⟩
  · unfold final_is_single_token
    rw [h1, hr, List.all_reverse]
  · unfold final_is_single_token
    rw [h1]
    simp

/-- `num_sequences` of one document, from
`LanguageModelTaskDataset.process_single_file` (lines 219-225):
`max(ceil(max(len(tokens) - (max_seq_length - 1), 0) / generation_length) + 1, 1)`.
`math.ceil` of a quotient of a non-negative by a positive integer is modelled as
`(a + g - 1) / g`; the inner `max(.., 0)` is truncated `Nat` subtraction. -/
def num_sequences (len_tokens max_seq_length generation_length : Nat) : Nat :=
  max ((len_tokens - (max_seq_length - 1) + generation_length - 1) / generation_length + 1) 1

/-- Model of Python `itertools.accumulate` on naturals: the list of prefix
sums. -/
def accumulate : List Nat → List Nat
  | [] => []
  | x :: xs => x :: (accumulate xs).map (x + ·)

/-- Model of Python `bisect.bisect_right(a, x)` on a sorted list: the insertion
point to the right of all entries equal to `x`, i.e. the number of leading
entries that are at most `x`. -/
def bisect_right (a : List Nat) (x : Nat) : Nat :=
  (a.takeWhile fun v => v ≤ x).length

/-- The index state of `LanguageModelTaskDataset`: each loaded document is
represented by its `num_sequences` entry (in `self.data` order), alongside
`self.weights` and `self.left_weights`. -/
structure LMDataset where
  data : List Nat
  weights : List Nat
  left_weights : List Nat
deriving DecidableEq

/-- `LanguageModelTaskDataset.process_single_file` (lines 210-230), abstracted
over the document's token count: it appends the document's `num_sequences` to
`self.data`, but rebuilds `self.weights` from the call-local `num_sequences`
list (which holds only the current file's count), and sets
`self.left_weights = [0] + self.weights[:-1]`. -/
def lm_process_single_file (st : LMDataset) (len_tokens max_seq_length generation_length : Nat) :
    LMDataset :=
  let n := num_sequences len_tokens max_seq_length generation_length
  let ns : List Nat := [] ++ [n]
  let weights := accumulate ns
  ⟨st.data ++ [n], weights, 0 :: weights.dropLast⟩

/-- `EvaluationDataset.__init__` loading loop (lines 57-59) specialised to
`LanguageModelTaskDataset`: `process_single_file` is run once per source file,
each file abstracted by its token count. -/
def lm_construct (files : List Nat) (max_seq_length generation_length : Nat) : LMDataset :=
  files.foldl (fun st f => lm_process_single_file st f max_seq_length generation_length) ⟨[], [], []⟩

/-- `LanguageModelTaskDataset.__len__` (lines 235-236):
`self.data[0]["num_sequences"]`, `none` modelling the `IndexError` on an empty
dataset. -/
def lm_len (st : LMDataset) : Option Nat := st.data.head?

/-- The flat-index-to-(document, local index) mapping of
`LanguageModelTaskDataset.__getitem__` (lines 238-240):
`document_idx = bisect_right(weights, idx)` and
`idx - left_weights[document_idx]`; `none` models the `IndexError` when
`document_idx` is out of range for `left_weights`. -/
def locate (weights left_weights : List Nat) (idx : Nat) : Option (Nat × Nat) :=
  let document_idx := bisect_right weights idx
  match left_weights[document_idx]? with
  | some l => some (document_idx, idx - l)
  | none => none

/-- `start_idx` of `__getitem__` (line 241): `idx * generation_length` for a
local window index. -/
def window_start (local_idx generation_length : Nat) : Nat := local_idx * generation_length

/-- `end_idx` of `__getitem__` (line 242): `start_idx + max_seq_length - 1`. -/
def window_end (local_idx generation_length max_seq_length : Nat) : Nat :=
  window_start local_idx generation_length + (max_seq_length - 1)

/-- Whether token position `x` of a document of `L` tokens lies inside the
`[start, end)` range of some window `i < num_sequences L msl glen`. -/
def window_covers (L max_seq_length generation_length x : Nat) : Bool :=
  (List.range (num_sequences L max_seq_length generation_length)).any fun i =>
    decide (window_start i generation_length ≤ x ∧
      x < window_end i generation_length max_seq_length)

/-- Counterexample to claim C4 as stated: constructing from two files with
window counts `[3, 2]` (token counts 3 and 2, `max_seq_length = 2`,
`generation_length = 1`), the length operation returns `3` (the first
document's window count), while the last entry of the cumulative array is `2`
(the loader rebuilt it from the last file alone) and the total number of
windows across all loaded documents is `5`. -/
theorem lm_len_cex :
    (lm_construct [3, 2] 2 1).data = [3, 2] ∧
    lm_len (lm_construct [3, 2] 2 1) = some 3 ∧
    (lm_construct [3, 2] 2 1).weights.getLast? = some 2 ∧
    lm_len (lm_construct [3, 2] 2 1) ≠ (lm_construct [3, 2] 2 1).weights.getLast? ∧
    lm_len (lm_construct [3, 2] 2 1) ≠ some ((lm_construct [3, 2] 2 1).data.sum) := by
  decide

/-- Claim C4 (amended): for a dataset constructed from a single source file, the
length operation returns the last entry of the cumulative window-count array,
which equals the total number of windows across all loaded documents. -/
theorem lm_len_single_file (f max_seq_length generation_length : Nat) :
    lm_len (lm_construct [f] max_seq_length generation_length) =
      (lm_construct [f] max_seq_length generation_length).weights.getLast? ∧
    lm_len (lm_construct [f] max_seq_length generation_length) =
      some ((lm_construct [f] max_seq_length generation_length).data.sum) := by
  constructor <;>
    simp [lm_construct, lm_process_single_file, lm_len, accumulate]

/-- Counterexample to claim C2 as stated: with `max_seq_length = 2` and
`generation_length = 2` (so `generation_length > max_seq_length - 1`), a
document of `L = 3` tokens gets `num_sequences = 2` windows `[0, 1)` and
`[2, 3)`, and token position `1 < L` lies in neither window: the union of the
window ranges does not cover `[0, L)`. -/
theorem lm_window_coverage_cex :
    num_sequences 3 2 2 = 2 ∧
    window_covers 3 2 2 1 = false ∧
    (1 : Nat) < 3 := by
  decide

/-- Every dataset has at least one window per document: `num_sequences` is at
least `1`. -/
theorem num_sequences_pos (L max_seq_length generation_length : Nat) :
    1 ≤ num_sequences L max_seq_length generation_length :=
  Nat.le_max_right _ 1

/-- `num_sequences` with its redundant outer `max` removed. -/
theorem num_sequences_eq (L max_seq_length generation_length : Nat) :
    num_sequences L max_seq_length generation_length =
      (L - (max_seq_length - 1) + generation_length - 1) / generation_length + 1 := by
  unfold num_sequences
  exact max_eq_left (Nat.le_add_left 1 _)

/-- The last window of a document reaches its end: `L` is at most the end of
window `num_sequences - 1`. -/
theorem last_window_reaches (L max_seq_length generation_length : Nat)
    (hg : 1 ≤ generation_length) :
    L ≤ (num_sequences L max_seq_length generation_length - 1) * generation_length +
      (max_seq_length - 1) := by
  rw [num_sequences_eq, Nat.add_sub_cancel, Nat.mul_comm]
  have hd := Nat.div_add_mod (L - (max_seq_length - 1) + generation_length - 1) generation_length
  have hm : (L - (max_seq_length - 1) + generation_length - 1) % generation_length <
      generation_length := Nat.mod_lt _ (by omega)
  omega

/-- Claim C2 (amended): provided `1 ≤ generation_length ≤ max_seq_length - 1`
(consecutive windows abut or overlap), the union of the `[start, end)` ranges of
windows `0 .. num_sequences - 1` covers every token position of a document of
length `L`, and the ranges of consecutive windows `i` and `i + 1` intersect in
the interval `[start(i+1), end(i))`, of size exactly
`max_seq_length - 1 - generation_length`. -/
theorem lm_window_coverage (L max_seq_length generation_length : Nat)
    (hg : 1 ≤ generation_length) (hov : generation_length ≤ max_seq_length - 1) :
    (∀ x, x < L → ∃ i, i < num_sequences L max_seq_length generation_length ∧
      window_start i generation_length ≤ x ∧
      x < window_end i generation_length max_seq_length) ∧
    (∀ i, i + 1 < num_sequences L max_seq_length generation_length →
      Finset.Ico (window_start i generation_length)
          (window_end i generation_length max_seq_length) ∩
        Finset.Ico (window_start (i + 1) generation_length)
          (window_end (i + 1) generation_length max_seq_length) =
        Finset.Ico (window_start (i + 1) generation_length)
          (window_end i generation_length max_seq_length) ∧
      (Finset.Ico (window_start (i + 1) generation_length)
          (window_end i generation_length max_seq_length)).card =
        max_seq_length - 1 - generation_length) := by
  constructor
  · intro x hx
    by_cases hcase : x / generation_length < num_sequences L max_seq_length generation_length
    · refine ⟨x / generation_length, hcase, Nat.div_mul_le_self x generation_length, ?_⟩
      have h1 : x % generation_length < generation_length := Nat.mod_lt _ (by omega)
      have h2 := Nat.div_add_mod x generation_length
      unfold window_end window_start
      rw [Nat.mul_comm]
      omega
    · have hpos := num_sequences_pos L max_seq_length generation_length
      refine ⟨num_sequences L max_seq_length generation_length - 1, by omega, ?_, ?_⟩
      · have h3 : num_sequences L max_seq_length generation_length - 1 ≤
            x / generation_length := by omega
        calc (num_sequences L max_seq_length generation_length - 1) * generation_length ≤
              x / generation_length * generation_length := Nat.mul_le_mul_right _ h3
          _ ≤ x := Nat.div_mul_le_self x generation_length
      · have h4 := last_window_reaches L max_seq_length generation_length hg
        unfold window_end window_start
        omega
  · intro i hi
    have e1 : window_start (i + 1) generation_length =
        window_start i generation_length + generation_length := by
      unfold window_start
      rw [Nat.succ_mul]
    constructor
    · rw [Finset.Ico_inter_Ico]
      have e2 : max (window_start i generation_length)
          (window_start (i + 1) generation_length) =
          window_start (i + 1) generation_length := by
        rw [e1]
        exact max_eq_right (Nat.le_add_right _ _)
      have e3 : min (window_end i generation_length max_seq_length)
          (window_end (i + 1) generation_length max_seq_length) =
          window_end i generation_length max_seq_length := by
        unfold window_end
        rw [e1]
        exact min_eq_left (by omega)
      rw [e2, e3]
    · rw [Nat.card_Ico]
      unfold window_end window_start
      rw [Nat.succ_mul]
      omega

/-- Concrete instance of `lm_window_coverage`: with `L = 10`,
`max_seq_length = 5`, `generation_length = 2`, windows 0 and 1 (ranges `[0, 4)`
and `[2, 6)`) intersect in `[2, 4)`, of size `5 - 1 - 2 = 2`. -/
theorem lm_window_coverage_witness :
    Finset.Ico (window_start 0 2) (window_end 0 2 5) ∩
      Finset.Ico (window_start (0 + 1) 2) (window_end (0 + 1) 2 5) =
      Finset.Ico (window_start (0 + 1) 2) (window_end 0 2 5) ∧
    (Finset.Ico (window_start (0 + 1) 2) (window_end 0 2 5)).card = 5 - 1 - 2 :=
  (lm_window_coverage 10 5 2 (by decide) (by decide)).2 0 (by decide)

/-- `accumulate` preserves list length. -/
theorem accumulate_length (c : List Nat) : (accumulate c).length = c.length := by
  induction c with
  | nil => rfl
  | cons x xs ih => simp [accumulate, ih]

/-- `getD` through a `map` that adds a constant. -/
theorem getD_map_add (x : Nat) (l : List Nat) (e : Nat) (he : e < l.length) :
    (l.map (x + ·)).getD e 0 = x + l.getD e 0 := by
  induction l generalizing e with
  | nil => simp at he
  | cons a t ih =>
    cases e with
    | zero => simp
    | succ e2 =>
      simp only [List.map_cons, List.getD_cons_succ]
      exact ih e2 (by simpa using he)

/-- The `d`-th entry of `accumulate c` is the sum of the first `d + 1` entries
of `c`. -/
theorem accumulate_getD (c : List Nat) (d : Nat) (hd : d < c.length) :
    (accumulate c).getD d 0 = (c.take (d + 1)).sum := by
  induction c generalizing d with
  | nil => simp at hd
  | cons x xs ih =>
    cases d with
    | zero => simp [accumulate]
    | succ e =>
      have he : e < xs.length := by simpa using hd
      simp only [accumulate, List.getD_cons_succ, List.take_succ_cons, List.sum_cons]
      rw [getD_map_add x _ e (by rwa [accumulate_length]), ih e he]

/-- Prefix sums are monotone in the prefix length. -/
theorem sum_take_mono (c : List Nat) (i j : Nat) (h : i ≤ j) :
    (c.take i).sum ≤ (c.take j).sum := by
  induction c generalizing i j with
  | nil => simp
  | cons a t ih =>
    cases i with
    | zero => simp
    | succ i2 =>
      cases j with
      | zero => omega
      | succ j2 =>
        simp only [List.take_succ_cons, List.sum_cons]
        have := ih i2 j2 (by omega)
        omega

/-- Length of `takeWhile` when the predicate holds on exactly the first `d`
entries. -/
theorem takeWhile_length_eq (p : Nat → Bool) (w : List Nat) (d : Nat) (hd : d < w.length)
    (h1 : ∀ j, j < d → p (w.getD j 0) = true) (h2 : p (w.getD d 0) = false) :
    (w.takeWhile p).length = d := by
  induction w generalizing d with
  | nil => simp at hd
  | cons a t ih =>
    cases d with
    | zero =>
      have h2a : p a = false := by simpa using h2
      simp [List.takeWhile_cons, h2a]
    | succ d2 =>
      have h1a : p a = true := by simpa using h1 0 (Nat.succ_pos d2)
      simp only [List.takeWhile_cons, h1a, if_true, List.length_cons]
      rw [ih d2 (by simpa using hd) (fun j hj => by simpa using h1 (j + 1) (by omega))
        (by simpa using h2)]

/-- `getElem?` at an in-range index agrees with `getD`. -/
theorem getElem_opt_eq_getD (l : List Nat) (i : Nat) (h : i < l.length) :
    l[i]? = some (l.getD i 0) := by
  induction l generalizing i with
  | nil => simp at h
  | cons a t ih =>
    cases i with
    | zero => simp
    | succ i2 => simpa using ih i2 (by simpa using h)

/-- `getD` commutes with `dropLast` away from the last position. -/
theorem dropLast_getD (l : List Nat) (i : Nat) (h : i + 1 < l.length) :
    l.dropLast.getD i 0 = l.getD i 0 := by
  induction l generalizing i with
  | nil => simp at h
  | cons a t ih =>
    cases t with
    | nil => simp at h
    | cons b t2 =>
      cases i with
      | zero => rfl
      | succ i2 =>
        have h2 : i2 + 1 < (b :: t2).length := by simpa using h
        simpa using ih i2 h2

/-- The `d`-th entry of `left_weights = [0] + weights[:-1]` is the sum of the
first `d` per-document window counts. -/
theorem left_weights_getD (c : List Nat) (d : Nat) (hd : d < c.length) :
    (0 :: (accumulate c).dropLast).getD d 0 = (c.take d).sum := by
  cases d with
  | zero => simp
  | succ e =>
    have hlen : e + 1 < (accumulate c).length := by rw [accumulate_length]; omega
    rw [List.getD_cons_succ, dropLast_getD _ _ hlen, accumulate_getD c e (by omega)]

/-- Counterexample to claim C3 as stated: constructing the dataset from two
files with per-document window counts `[3, 2]` does not give
`cumulative = [3, 5]` — the loader rebuilds `weights` per file, leaving `[2]` —
and locating flat index 3 is an out-of-range access on `left_weights` (returns
`none`), not document 1 with local index 0. -/
theorem lm_locate_cex :
    (lm_construct [3, 2] 2 1).data = [3, 2] ∧
    (lm_construct [3, 2] 2 1).weights = [2] ∧
    locate (lm_construct [3, 2] 2 1).weights (lm_construct [3, 2] 2 1).left_weights 3 =
      none := by
  decide

/-- Claim C3 (amended): for a window index actually built by prefix summation of
the per-document window counts `c` (with `left_weights = [0] + weights[:-1]`, as
`process_single_file` builds for the counts it retains), every flat index in
document `d`'s range — at least the sum of the first `d` counts, the boundary
value included, and below the sum of the first `d + 1` counts — is mapped by
`locate` to document `d` with local index `flat index - left boundary`.  A
boundary-valued flat index therefore belongs to the next document with local
index 0 (upper-bound search), never to the previous document's final window, and
the documents' flat ranges are contiguous and non-overlapping. -/
theorem lm_locate_upper_bound (c : List Nat) (d idx : Nat) (hd : d < c.length)
    (h1 : (c.take d).sum ≤ idx) (h2 : idx < (c.take (d + 1)).sum) :
    locate (accumulate c) (0 :: (accumulate c).dropLast) idx =
      some (d, idx - (c.take d).sum) := by
  have hb : bisect_right (accumulate c) idx = d := by
    unfold bisect_right
    apply takeWhile_length_eq _ _ d (by rw [accumulate_length]; exact hd)
    · intro j hj
      have hj2 : j < c.length := by omega
      rw [accumulate_getD c j hj2]
      have h3 := sum_take_mono c (j + 1) d (by omega)
      simp only [decide_eq_true_eq]
      omega
    · rw [accumulate_getD c d hd]
      simp only [decide_eq_false_iff_not]
      omega
  have hdlen : d < (0 :: (accumulate c).dropLast).length := by
    simp only [List.length_cons, List.length_dropLast, accumulate_length]
    omega
  simp only [locate, hb, getElem_opt_eq_getD _ _ hdlen, left_weights_getD c d hd]

/-- Concrete instance of `lm_locate_upper_bound`: per-document window counts
`[3, 2]` give cumulative `[3, 5]`, and flat index 3 (a boundary value) resolves
to document 1 with local index 0. -/
theorem lm_locate_upper_bound_witness :
    locate (accumulate [3, 2]) (0 :: (accumulate [3, 2]).dropLast) 3 = some (1, 0) :=
  lm_locate_upper_bound [3, 2] 1 3 (by decide) (by decide) (by decide)

end GLM130B
